import Mathlib

/-!
# Reverse proxy and dev-server bootstrap of `cmd/rest.go`

Shallow embedding of `setupNextJSServe`, `startNextJSDev`, `proxyToNextJSAPI`
and `proxyToNextJS`.

Go strings are byte sequences; they are modelled as `List Char` (`Str`), with
`strings.HasPrefix`, `strings.TrimPrefix` and `+` acting element-wise.

The web framework (fiber v2, default `CaseSensitive = false`,
`StrictRouting = false` as left by `fiber.New` in `restServer`), its server
library and the Go HTTP client are library code outside the repository.  The
part of the router that decides which registered handler receives a path
(`getMatch` on the parsed route segments), `Ctx.Status`, `Ctx.Send` and
`http.Header.Set` are modelled after their behaviour.  `Ctx.Set` is the
`Set` of the server library on the response header: it normalises the key
and treats `Content-Type`, `Content-Length`, `Content-Encoding`,
`Connection`, `Server`, `Set-Cookie`, `Transfer-Encoding`, `Trailer` and
`Date` on their own before falling back to the overwriting entry list.  The
network (`http.NewRequest` validity and `client.Do`) and the operating system
(`os.Stat`, running commands) are parameters.
-/

namespace RestProxy

/-! ## Strings -/

/-- Go `string`, as the sequence of its bytes. -/
abbrev Str := List Char

/-- Go `strings.HasPrefix(s, prefix)`. -/
def hasPrefix (s pre : Str) : Bool := pre.isPrefixOf s

/-- Go `strings.TrimPrefix(s, prefix)`: `s` without the leading `prefix`, or `s`
itself when it does not start with `prefix`. -/
def trimPrefix (s pre : Str) : Str :=
  if hasPrefix s pre then s.drop pre.length else s

/-- Go `strings.HasSuffix(s, suffix)`. -/
def hasSuffix (s suf : Str) : Bool := suf.isSuffixOf s

/-- The router helper `utils.ToLower`: ASCII lower-casing of every byte. -/
def toLower (s : Str) : Str := s.map Char.toLower

/-- The router helper `utils.TrimRight(s, cutset)`: drop every trailing `cutset` byte. -/
def trimRight : Str → Char → Str
  | [], _ => []
  | x :: xs, cutset =>
    match trimRight xs cutset with
    | [] => if x == cutset then [] else [x]
    | y :: ys => x :: y :: ys

/-- Go `strings.IndexByte(s, c)`; `none` stands for `-1`. -/
def indexByte : Str → Char → Option Nat
  | [], _ => none
  | x :: xs, ch => if x == ch then some 0 else (indexByte xs ch).map Nat.succ

/-- Go `strings.Index(s, substr)`; `none` stands for `-1`. -/
def index : Str → Str → Option Nat
  | [], sub => if sub.isEmpty then some 0 else none
  | x :: xs, sub =>
    if hasPrefix (x :: xs) sub then some 0 else (index xs sub).map Nat.succ

/-- Go `strings.LastIndex(s, substr)`; `none` stands for `-1`. -/
def lastIndex : Str → Str → Option Nat
  | [], sub => if sub.isEmpty then some 0 else none
  | x :: xs, sub =>
    match lastIndex xs sub with
    | some i => some (i + 1)
    | none => if hasPrefix (x :: xs) sub then some 0 else none

/-- Scan of `strings.Count` for a non-empty `substr`, with fuel bounding the
remaining length: occurrences are counted without overlap. -/
def countFrom (sub : Str) : Nat → Str → Nat
  | 0, _ => 0
  | _ + 1, [] => 0
  | fuel + 1, x :: xs =>
    if hasPrefix (x :: xs) sub then 1 + countFrom sub fuel ((x :: xs).drop (max sub.length 1))
    else countFrom sub fuel xs

/-- Go `strings.Count(s, substr)` for a non-empty `substr`. -/
def count (s sub : Str) : Nat := countFrom sub s.length s

/-! ## Router (fiber v2 `path.go`, `router.go`) -/

/-- One parsed segment of a route pattern (`routeSegment`), without the
constraint list, which is empty for every pattern registered here. -/
structure routeSegment where
  /-- Constant text of a constant segment. -/
  Const : Str
  /-- Whether the segment is a parameter or wildcard. -/
  IsParam : Bool
  /-- Constant part that follows the parameter, used to find its end. -/
  ComparePart : Str
  /-- How often the compare part occurs in the following constants. -/
  PartCount : Nat
  /-- Wildcards are greedy. -/
  IsGreedy : Bool
  /-- Wildcard `*` and `:name?` are optional. -/
  IsOptional : Bool
  /-- Last segment of the pattern. -/
  IsLast : Bool
  /-- Constant ends in a slash that may be missing before an optional part. -/
  HasOptionalSlash : Bool
  /-- Length of the constant (zero for parameters here). -/
  Length : Nat

/-- Constant segment. -/
def constSeg (text : Str) (isLast hasOptionalSlash : Bool) : routeSegment :=
  ⟨text, false, [], 0, false, false, isLast, hasOptionalSlash, text.length⟩

/-- Wildcard segment `*`: greedy and optional. -/
def wildcardSeg (comparePart : Str) (partCount : Nat) (isLast : Bool) : routeSegment :=
  ⟨[], true, comparePart, partCount, true, true, isLast, false, 0⟩

/-- Named parameter segment `:name`: neither greedy nor optional. -/
def paramSeg (comparePart : Str) (partCount : Nat) (isLast : Bool) : routeSegment :=
  ⟨[], true, comparePart, partCount, false, false, isLast, false, 0⟩

/-- Router function `findParamLenForLastSegment`: a parameter that ends the
pattern takes everything when greedy, else everything up to the next slash. -/
def findParamLenForLastSegment (s : Str) (seg : routeSegment) : Nat :=
  if !seg.IsGreedy then
    match indexByte s '/' with
    | some i => i
    | none => s.length
  else s.length

/-- Router function `findGreedyParamLen`: cut the compare part off from the right,
`PartCount` times at most. -/
def findGreedyParamLen : Nat → Str → Nat → routeSegment → Nat
  | 0, s, _, _ => s.length
  | _ + 1, s, 0, _ => s.length
  | i + 1, s, searchCount + 1, seg =>
    match lastIndex s seg.ComparePart with
    | some constPosition => findGreedyParamLen i (s.take constPosition) searchCount seg
    | none => s.length

/-- Router function `findParamLen`: the number of bytes of `s` taken by the parameter. -/
def findParamLen (s : Str) (seg : routeSegment) : Nat :=
  if seg.IsLast then findParamLenForLastSegment s seg
  else if seg.Length != 0 && s.length >= seg.Length then seg.Length
  else if seg.IsGreedy && count s seg.ComparePart > 1 then
    findGreedyParamLen seg.PartCount s (count s seg.ComparePart) seg
  else if seg.ComparePart.length == 1 then
    match indexByte s (seg.ComparePart.headD '/') with
    | some constPosition => constPosition
    | none => s.length
  else
    match index s seg.ComparePart with
    | some constPosition =>
      if !seg.IsGreedy && (indexByte (s.take constPosition) '/').isSome then 0
      else constPosition
    | none => s.length

/-- Router function `routeParser.getMatch` with `partialCheck = false`: consume the detection
path segment by segment; the path matches when nothing is left over. -/
def getMatch : List routeSegment → Str → Bool
  | [], detectionPath => detectionPath.isEmpty
  | seg :: segs, detectionPath =>
    if !seg.IsParam then
      if seg.HasOptionalSlash && detectionPath.length + 1 == seg.Length
          && detectionPath == seg.Const.take (seg.Length - 1) then
        getMatch segs (detectionPath.drop (seg.Length - 1))
      else if seg.Length ≤ detectionPath.length && detectionPath.take seg.Length == seg.Const then
        getMatch segs (detectionPath.drop seg.Length)
      else false
    else
      let i := findParamLen detectionPath seg
      if !seg.IsOptional && i == 0 then false
      else getMatch segs (detectionPath.drop i)

/-- The two proxy functions a route closure can call. -/
inductive Proxy where
  | proxyToNextJSAPI
  | proxyToNextJS
  deriving DecidableEq, Repr

/-- A route registered with `app.All(path, handler)`: the pattern, its parsed
segments, and the closure, reduced to the proxy function it calls for a
given `c.Path()`. -/
structure Route where
  /-- Pattern text. -/
  path : Str
  /-- Parsed pattern. -/
  routeParser : List routeSegment
  /-- Closure: which proxy function runs for the request path. -/
  handler : Str → Proxy

/-- The detection path of `configDependentPaths` under the default
configuration: lower-cased, and with trailing slashes stripped when longer
than one byte. -/
def detectionPath (path : Str) : Str :=
  let lowered := toLower path
  if lowered.length > 1 && lowered.getLast? == some '/' then trimRight lowered '/' else lowered

/-- Router function `Route.match` for a route with parameters that is not a middleware:
the parsed pattern matches, or the detection path is the pattern text. -/
def Route.isMatch (r : Route) (detection : Str) : Bool :=
  getMatch r.routeParser detection || detection == r.path

/-- Router walk (`app.next`): the first registered route that matches handles
the request; `none` when no route of the list matches. -/
def next : List Route → Str → Option Proxy
  | [], _ => none
  | r :: rs, path =>
    if r.isMatch (detectionPath path) then some (r.handler path) else next rs path

/-! ## HTTP values -/

/-- Type `http.Header` of the Go client (`map[string][]string`): one entry per
key, each with its list of values. -/
abbrev GoHeader := List (Str × List Str)

/-- Go `http.Header.Set(key, value)`: the entry of `key` becomes the single
value `value`.  The keys handed over by the server are already in canonical
form, so the canonicalisation of `Set` leaves them as they are. -/
def GoHeader.set : GoHeader → Str → Str → GoHeader
  | [], key, value => [(key, [value])]
  | (k, vs) :: rest, key, value =>
    if k == key then (k, [value]) :: rest else (k, vs) :: GoHeader.set rest key value

/-- Go `http.Header.Values(key)`. -/
def GoHeader.values : GoHeader → Str → List Str
  | [], _ => []
  | (k, vs) :: rest, key => if k == key then vs else GoHeader.values rest key

/-- The outbound `*http.Request` built by `http.NewRequest` and the header
copy. -/
structure ProxyReq where
  /-- HTTP method. -/
  method : Str
  /-- Target URL. -/
  url : Str
  /-- Request header. -/
  header : GoHeader
  /-- Body bytes. -/
  body : Str

/-- The upstream `*http.Response` returned by `client.Do`: status code,
header map in the order the `range` loop visits it, and the bytes that
`io.ReadAll(resp.Body)` yields. -/
structure UpstreamResp where
  /-- Field `StatusCode`. -/
  statusCode : Nat
  /-- Field `Header`. -/
  header : GoHeader
  /-- Bytes read from `Body`. -/
  body : Str

/-- The response header state of the server library (`ResponseHeader`), as
far as `Set` touches it: the dedicated fields of the keys it treats on their
own, the list of cookie lines, and the list `h` of all other entries. -/
structure ResponseHeader where
  /-- Value of `Content-Type`; empty when none was set. -/
  contentType : Str
  /-- Text of the last valid `Content-Length` that was set. -/
  contentLengthBytes : Str
  /-- Value of `Content-Encoding`; empty when none was set. -/
  contentEncoding : Str
  /-- Value of `Server`; empty when none was set. -/
  server : Str
  /-- Flag behind `Connection: close`. -/
  connectionClose : Bool
  /-- Text given for `Trailer`; the library parses and validates the names,
  which nothing here reads. -/
  trailer : Str
  /-- One entry per `Set-Cookie` line, the text of the line; the cookie name
  the library keeps beside it is left out. -/
  cookies : List Str
  /-- Entries of every other key, in order. -/
  h : List (Str × Str)
  deriving DecidableEq

/-- The response under construction inside the `*fiber.Ctx`: status, header
state and body. -/
structure Response where
  /-- Status code. -/
  status : Nat
  /-- Header state. -/
  header : ResponseHeader
  /-- Body bytes. -/
  body : Str

/-- The `*fiber.Ctx` as the proxy functions use it: the inbound request
(`Method()`, `Path()`, the header entries visited by `VisitAll` in order,
`Body()`) and the response being built. -/
structure Ctx where
  /-- Method of the inbound request. -/
  method : Str
  /-- Path of the inbound request, case preserved. -/
  path : Str
  /-- Inbound header entries, in `VisitAll` order; a key may repeat. -/
  reqHeaders : List (Str × Str)
  /-- Inbound body. -/
  body : Str
  /-- Response under construction (earlier middleware may have written it). -/
  resp : Response

/-- Library function `setArg`: overwrite the value of the first entry with
that key, or append a new entry. -/
def setArg : List (Str × Str) → Str → Str → List (Str × Str)
  | [], key, value => [(key, value)]
  | (k, v) :: rest, key, value =>
    if k == key then (k, value) :: rest else (k, v) :: setArg rest key value

/-- Library function `delAllArgs`: remove every entry with that key. -/
def delAllArgs (h : List (Str × Str)) (key : Str) : List (Str × Str) :=
  h.filter (fun kv => !(kv.1 == key))

/-- Values stored for a key in a header entry list. -/
def headerValues (h : List (Str × Str)) (key : Str) : List Str :=
  (h.filter (fun kv => kv.1 == key)).map Prod.snd

/-- Scan of `normalizeHeaderKey`; the flag tells whether the byte is the first
one or follows a dash and is therefore upper-cased. -/
def normalizeFrom : Bool → Str → Str
  | _, [] => []
  | true, ch :: rest => ch.toUpper :: normalizeFrom false rest
  | false, ch :: rest =>
    if ch == '-' then ch :: normalizeFrom true rest else ch.toLower :: normalizeFrom false rest

/-- Library function `normalizeHeaderKey`: the first byte and every byte after
a dash in upper case, the others in lower case. -/
def normalizeHeaderKey (key : Str) : Str := normalizeFrom true key

/-- Header name `Content-Type`. -/
def strContentType : Str := "Content-Type".toList

/-- Header name `Content-Length`. -/
def strContentLength : Str := "Content-Length".toList

/-- Header name `Content-Encoding`. -/
def strContentEncoding : Str := "Content-Encoding".toList

/-- Header name `Connection`. -/
def strConnection : Str := "Connection".toList

/-- Header name `Server`. -/
def strServer : Str := "Server".toList

/-- Header name `Set-Cookie`. -/
def strSetCookie : Str := "Set-Cookie".toList

/-- Header name `Transfer-Encoding`. -/
def strTransferEncoding : Str := "Transfer-Encoding".toList

/-- Header name `Trailer`. -/
def strTrailer : Str := "Trailer".toList

/-- Header name `Date`. -/
def strDate : Str := "Date".toList

/-- Connection value `close`. -/
def strClose : Str := "close".toList

/-- Content type the library reports when none was set. -/
def defaultContentType : Str := "text/plain; charset=utf-8".toList

/-- Whether `parseContentLength` accepts the text: a non-empty run of decimal
digits (the overflow check is left out). -/
def validContentLength (value : Str) : Bool :=
  !value.isEmpty && value.all Char.isDigit

/-- Library method `setNonSpecial`: `setArg` on the entry list. -/
def ResponseHeader.setNonSpecial (h : ResponseHeader) (key value : Str) : ResponseHeader :=
  { h with h := setArg h.h key value }

/-- Library method `ResetConnectionClose`: when the close flag is set, clear
it and remove the `Connection` entries. -/
def ResponseHeader.ResetConnectionClose (h : ResponseHeader) : ResponseHeader :=
  if h.connectionClose then
    { h with connectionClose := false, h := delAllArgs h.h strConnection }
  else h

/-- The keys the library treats on their own in `setSpecialHeader`, and
`other` for the rest. -/
inductive HeaderKind where
  | contentType
  | contentLength
  | contentEncoding
  | connection
  | server
  | setCookie
  | transferEncoding
  | trailer
  | date
  | other
  deriving DecidableEq, Repr

/-- The header name of each special case. -/
def HeaderKind.name : HeaderKind → Option Str
  | .contentType => some strContentType
  | .contentLength => some strContentLength
  | .contentEncoding => some strContentEncoding
  | .connection => some strConnection
  | .server => some strServer
  | .setCookie => some strSetCookie
  | .transferEncoding => some strTransferEncoding
  | .trailer => some strTrailer
  | .date => some strDate
  | .other => none

/-- The case of the key switch a normalised key falls in.  The library
compares the key with each name without regard to case, which on a normalised
key is equality with the name. -/
def headerKind (key : Str) : HeaderKind :=
  if key == strContentType then .contentType
  else if key == strContentLength then .contentLength
  else if key == strContentEncoding then .contentEncoding
  else if key == strConnection then .connection
  else if key == strServer then .server
  else if key == strSetCookie then .setCookie
  else if key == strTransferEncoding then .transferEncoding
  else if key == strTrailer then .trailer
  else if key == strDate then .date
  else .other

/-- Library method `setSpecialHeader`, on a normalised key: `some` of the new
state when the key is one the library treats on its own, `none` otherwise.
`Content-Type`, `Content-Encoding` and `Server` go to their field; a valid
`Content-Length` is recorded and an invalid one dropped; `Connection: close`
sets the close flag and any other `Connection` value clears it and is stored
as an entry; every `Set-Cookie` value is appended to the cookie list;
`Transfer-Encoding` and `Date` are ignored, the server writing its own. -/
def ResponseHeader.setSpecialHeader (h : ResponseHeader) (key value : Str) :
    Option ResponseHeader :=
  match headerKind key with
  | .contentType => some { h with contentType := value }
  | .contentLength =>
    some (if validContentLength value then { h with contentLengthBytes := value } else h)
  | .contentEncoding => some { h with contentEncoding := value }
  | .connection =>
    some (if value == strClose then { h with connectionClose := true }
      else h.ResetConnectionClose.setNonSpecial key value)
  | .server => some { h with server := value }
  | .setCookie => some { h with cookies := h.cookies ++ [value] }
  | .transferEncoding => some h
  | .trailer => some { h with trailer := value }
  | .date => some h
  | .other => none

/-- Library method `SetCanonical`: the special treatment when the key has
one, `setNonSpecial` otherwise. -/
def ResponseHeader.SetCanonical (h : ResponseHeader) (key value : Str) : ResponseHeader :=
  match h.setSpecialHeader key value with
  | some r => r
  | none => h.setNonSpecial key value

/-- Library method `ResponseHeader.Set(key, value)`: normalise the key, then
`SetCanonical`. -/
def ResponseHeader.Set (h : ResponseHeader) (key value : Str) : ResponseHeader :=
  h.SetCanonical (normalizeHeaderKey key) value

/-- The values the response carries for a normalised key, read off the
header state: the field for `Content-Type` (the default type when empty),
`Content-Encoding` and `Server` (nothing when empty); for `Connection` the
entries of the list, followed by `close` when the close flag is set; the
recorded `Content-Length`; the cookie lines for `Set-Cookie`; the trailer
text; and the entries of the list for every other key.  A `Date` is never
stored: the server writes its own when it sends the response. -/
def ResponseHeader.valuesOf (h : ResponseHeader) (key : Str) : List Str :=
  match headerKind key with
  | .contentType => [if h.contentType == [] then defaultContentType else h.contentType]
  | .contentEncoding => if h.contentEncoding == [] then [] else [h.contentEncoding]
  | .server => if h.server == [] then [] else [h.server]
  | .connection => headerValues h.h key ++ (if h.connectionClose then [strClose] else [])
  | .contentLength => if h.contentLengthBytes == [] then [] else [h.contentLengthBytes]
  | .setCookie => h.cookies
  | .trailer => if h.trailer == [] then [] else [h.trailer]
  | _ => headerValues h.h key

/-- Method `c.Set(key, val)`: `Set` on the header of the response. -/
def Ctx.Set (c : Ctx) (key val : Str) : Ctx :=
  { c with resp := { c.resp with header := c.resp.header.Set key val } }

/-- Method `c.Status(status)`. -/
def Ctx.Status (c : Ctx) (status : Nat) : Ctx :=
  { c with resp := { c.resp with status := status } }

/-- Methods `c.Send(body)` and `c.SendString(body)`: set the response body. -/
def Ctx.Send (c : Ctx) (body : Str) : Ctx :=
  { c with resp := { c.resp with body := body } }

/-- All values the response carries for a key, whatever the case of its
letters. -/
def Response.values (r : Response) (key : Str) : List Str :=
  r.header.valuesOf (normalizeHeaderKey key)

/-- The network as seen by the proxy functions. -/
structure Net where
  /-- Whether `http.NewRequest(method, url, body)` returns a nil error. -/
  newRequestOk : Str → Str → Bool
  /-- Outcome of `client.Do(req)`: `none` for an error, else the response. -/
  clientDo : ProxyReq → Option UpstreamResp

/-- What a proxy function leaves behind: the final context and the outbound
calls it issued with `client.Do`, in order. -/
structure Outcome where
  /-- Context after the handler returned. -/
  ctx : Ctx
  /-- Outbound requests sent. -/
  calls : List ProxyReq

/-- The header copy loop of both proxy functions: `VisitAll` calls
`proxyReq.Header.Set(key, value)` for every inbound entry, in order. -/
def copyRequestHeaders (entries : List (Str × Str)) (h : GoHeader) : GoHeader :=
  entries.foldl (fun acc kv => acc.set kv.1 kv.2) h

/-- The response header copy loop of both proxy functions: for every key of
`resp.Header` and every value of that key, in order, `c.Set(key, value)`. -/
def copyResponseHeaders (header : GoHeader) (c : Ctx) : Ctx :=
  header.foldl (fun acc kvs => kvs.2.foldl (fun acc2 value => acc2.Set kvs.1 value) acc) c

/-- The outbound request both proxy functions build for a target URL: the
method and body of the inbound request, and its headers copied onto the
empty header of a new request. -/
def outboundRequest (c : Ctx) (targetURL : Str) : ProxyReq :=
  ⟨c.method, targetURL, copyRequestHeaders c.reqHeaders [], c.body⟩

/-- Common tail of both proxy functions after the target URL is computed:
build the request (status 500 on failure), copy the headers, send it
(status 502 with `unavailable` on failure), relay headers, status and body. -/
def forward (net : Net) (c : Ctx) (targetURL unavailable : Str) : Outcome :=
  if !net.newRequestOk c.method targetURL then
    ⟨(c.Status 500).Send "Failed to create proxy request".toList, []⟩
  else
    match net.clientDo (outboundRequest c targetURL) with
    | none => ⟨(c.Status 502).Send unavailable, [outboundRequest c targetURL]⟩
    | some resp =>
      ⟨((copyResponseHeaders resp.header c).Status resp.statusCode).Send resp.body,
        [outboundRequest c targetURL]⟩

/-- The `apiPath` of `proxyToNextJSAPI`: `strings.TrimPrefix(c.Path(), "/web")`. -/
def apiPath (path : Str) : Str := trimPrefix path "/web".toList

/-- The `targetURL` of `proxyToNextJSAPI`, for `config.AppPort = appPort`. -/
def apiTargetURL (appPort path : Str) : Str :=
  "http://localhost:".toList ++ appPort ++ apiPath path

/-- Function `proxyToNextJSAPI`, for `config.AppPort = appPort`. -/
def proxyToNextJSAPI (appPort : Str) (net : Net) (c : Ctx) : Outcome :=
  forward net c (apiTargetURL appPort c.path) "Backend server unavailable".toList

/-- The `path` of `proxyToNextJS`: the request path with a leading `/web`
trimmed, `/` when that leaves nothing. -/
def nextPath (path : Str) : Str :=
  let p := trimPrefix path "/web".toList
  if p == [] then "/".toList else p

/-- The `targetURL` of `proxyToNextJS`. -/
def nextTargetURL (path : Str) : Str := "http://localhost:3001".toList ++ nextPath path

/-- Function `proxyToNextJS`. -/
def proxyToNextJS (net : Net) (c : Ctx) : Outcome :=
  forward net c (nextTargetURL c.path) "Next.js server unavailable".toList

/-- Run the proxy function a route closure selected. -/
def runProxy (appPort : Str) (net : Net) (c : Ctx) : Proxy → Outcome
  | .proxyToNextJSAPI => proxyToNextJSAPI appPort net c
  | .proxyToNextJS => proxyToNextJS net c

/-! ## Route registration -/

/-- Closure registered on `/web/*`. -/
def webHandler (path : Str) : Proxy :=
  if hasPrefix path "/web/api/".toList then .proxyToNextJSAPI else .proxyToNextJS

/-- Closure registered on every other pattern. -/
def nextHandler (_path : Str) : Proxy := .proxyToNextJS

/-- Route `/web/*`. -/
def routeWeb : Route :=
  ⟨"/web/*".toList, [constSeg "/web/".toList false true, wildcardSeg [] 0 true], webHandler⟩

/-- Route `/_next/*`. -/
def routeNextAssets : Route :=
  ⟨"/_next/*".toList, [constSeg "/_next/".toList false true, wildcardSeg [] 0 true], nextHandler⟩

/-- Route `/:file<ext>` for a dotted extension such as `.svg`. -/
def routeFile (ext : Str) : Route :=
  ⟨"/:file".toList ++ ext,
    [constSeg "/".toList false false, paramSeg ext 1 false, constSeg ext true false],
    nextHandler⟩

/-- Route `/__next*/*`. -/
def routeDevHelpers : Route :=
  ⟨"/__next*/*".toList,
    [constSeg "/__next".toList false false, wildcardSeg "/".toList 1 false,
      constSeg "/".toList false true, wildcardSeg [] 0 true],
    nextHandler⟩

/-- Outcome of `os.Stat`: the file exists, the error satisfies
`os.IsNotExist`, or some other error. -/
inductive StatResult where
  | found
  | notExist
  | otherError
  deriving DecidableEq, Repr

/-- Go `os.IsNotExist(err)` on the error of an `os.Stat` outcome. -/
def StatResult.isNotExist : StatResult → Bool
  | .notExist => true
  | _ => false

/-- What `setupNextJSServe` did: whether it launched `go startNextJSDev`
and the routes it registered, in registration order. -/
structure Setup where
  /-- Whether `go startNextJSDev(nextjsPath)` was executed. -/
  launched : Bool
  /-- Routes registered on the app. -/
  routes : List Route

/-- Function `setupNextJSServe`, given the outcome of `os.Stat("whatsapp-web")`. -/
def setupNextJSServe (statProject : StatResult) : Setup :=
  if statProject.isNotExist then ⟨false, []⟩
  else
    ⟨true, [routeWeb, routeNextAssets, routeFile ".svg".toList, routeFile ".png".toList,
      routeFile ".jpg".toList, routeDevHelpers]⟩

/-- Serving a request with the routes of a setup: `none` when no registered
route matches (the request is left to the rest of the app), else the outcome
of the selected proxy function. -/
def serve (setup : Setup) (appPort : Str) (net : Net) (c : Ctx) : Option Outcome :=
  (next setup.routes c.path).map (runProxy appPort net c)

/-- Outbound calls made while serving: none when no route matched. -/
def outboundCalls : Option Outcome → List ProxyReq
  | none => []
  | some o => o.calls

/-! ## Dev-server supervisor -/

/-- An `exec.Cmd`: program, arguments, working directory and the environment
(`none` when `Env` is left nil and the parent environment is inherited). -/
structure Cmd where
  /-- Program name. -/
  name : Str
  /-- Arguments. -/
  args : List Str
  /-- Field `Dir`. -/
  dir : Str
  /-- Field `Env`. -/
  env : Option (List Str)

/-- Observable steps of the supervisor. -/
inductive Action where
  /-- A log line. -/
  | log (msg : Str)
  /-- `cmd.Run()`: run a command and wait for it. -/
  | run (cmd : Cmd)
  /-- `cmd.Start()`: start a child process without waiting. -/
  | start (cmd : Cmd)

/-- The operating system as seen by the boot step. -/
structure OS where
  /-- `os.Stat("whatsapp-web")`. -/
  statProject : StatResult
  /-- `os.Stat("whatsapp-web/node_modules")`. -/
  statNodeModules : StatResult
  /-- Whether `npm install` ends without error. -/
  installOk : Bool
  /-- Whether starting `npm run dev` succeeds. -/
  startOk : Bool
  /-- `os.Environ()`. -/
  environ : List Str
  /-- `os.Getenv("APP_BASIC_AUTH")`. -/
  basicAuth : Str

/-- The environment prepared for the dev server. -/
def devEnv (os : OS) (appPort : Str) : List Str :=
  let env := os.environ
  let env :=
    if os.basicAuth != [] then
      (env ++ ["APP_BASIC_AUTH=".toList ++ os.basicAuth])
        ++ ["NEXT_PUBLIC_APP_BASIC_AUTH=".toList ++ os.basicAuth]
    else env
  env ++ ["NEXT_PUBLIC_WHATSAPP_API_URL=http://localhost:".toList ++ appPort]

/-- The install command `npm install`. -/
def installCmd (nextjsPath : Str) : Cmd :=
  ⟨"npm".toList, ["install".toList], nextjsPath, none⟩

/-- The dev-server command `npm run dev`. -/
def devCmd (os : OS) (appPort nextjsPath : Str) : Cmd :=
  ⟨"npm".toList, ["run".toList, "dev".toList], nextjsPath, some (devEnv os appPort)⟩

/-- Function `startNextJSDev`: the steps it performs, in order. -/
def startNextJSDev (os : OS) (appPort nextjsPath : Str) : List Action :=
  let begin := [Action.log "Starting Next.js development server...".toList]
  let install :=
    if os.statNodeModules.isNotExist then
      [Action.log "Installing Next.js dependencies...".toList, Action.run (installCmd nextjsPath)]
    else []
  if os.statNodeModules.isNotExist && !os.installOk then
    begin ++ install ++ [Action.log "Failed to install Next.js dependencies".toList]
  else
    begin ++ install ++ [Action.start (devCmd os appPort nextjsPath)] ++
      (if os.startOk then
        [Action.log "Next.js development server started - access via http://localhost:3001".toList]
      else [Action.log "Failed to start Next.js".toList])

/-- One run of the boot step: `setupNextJSServe`, and the goroutine
`startNextJSDev` when it was launched. -/
def bootStep (os : OS) (appPort : Str) : List Action :=
  if (setupNextJSServe os.statProject).launched then
    startNextJSDev os appPort "whatsapp-web".toList
  else [Action.log "whatsapp-web directory not found, skipping Next.js setup".toList]

/-- Whether a step starts the dev-server child process `npm run dev`. -/
def Action.isDevServerStart : Action → Bool
  | .start cmd => cmd.name == "npm".toList && cmd.args == ["run".toList, "dev".toList]
  | _ => false

/-- Whether a step launches any process. -/
def Action.isProcess : Action → Bool
  | .log _ => false
  | _ => true

/-! ## Proof-side definitions and sample values -/

/-- A header state nothing has been written to yet. -/
def emptyHeader : ResponseHeader := ⟨[], [], [], [], false, [], [], []⟩

/-- A response nothing has been written to yet. -/
def emptyResponse : Response := ⟨200, emptyHeader, []⟩

/-- A `GET` request for a path, with the given header entries and no body. -/
def getRequest (path : Str) (headers : List (Str × Str)) : Ctx :=
  ⟨"GET".toList, path, headers, [], emptyResponse⟩

/-- A network where requests can be built and no upstream is listening. -/
def refusingNet : Net := ⟨fun _ _ => true, fun _ => none⟩

/-- A network where every upstream call returns the given response. -/
def answeringNet (resp : UpstreamResp) : Net := ⟨fun _ _ => true, fun _ => some resp⟩

/-- The rewritten path as the specification words it: the request path with
the namespace-plus-API prefix removed, the prefix read without its closing
slash. -/
def specRewrittenPath (path : Str) : Str := trimPrefix path "/web/api".toList

/-- The same, the prefix read with its closing slash. -/
def specRewrittenPathSlash (path : Str) : Str := trimPrefix path "/web/api/".toList

/-- Header-level effect of the inner loop: `Set` each value in turn. -/
def setValues (h : ResponseHeader) (key : Str) (values : List Str) : ResponseHeader :=
  values.foldl (fun acc value => acc.Set key value) h

/-- Header-level effect of the whole response header copy loop. -/
def relayHeaders (header : GoHeader) (h : ResponseHeader) : ResponseHeader :=
  header.foldl (fun acc kvs => setValues acc kvs.1 kvs.2) h

/-- Whether a value set for a normalised key is kept as the value of that
key, for a response sent with the given body: `Content-Type`,
`Content-Encoding` and `Server` count as unset while empty, and a
`Content-Length` is kept when it is the run of digits that states the length
of the body, the server deriving that header from the body it sends. -/
def keepsValue (body key value : Str) : Bool :=
  match headerKind key with
  | .contentType | .contentEncoding | .server => !value.isEmpty
  | .contentLength => validContentLength value && value == Nat.toDigits 10 body.length
  | _ => true

/-- Whether a single-valued header set with `c.Set` is relayed with its
value: not for `Date` and `Transfer-Encoding`, which `Set` ignores, nor for
`Trailer`, whose names the library rewrites; otherwise when the value is
kept. -/
def relayedWithValue (body key value : Str) : Bool :=
  match headerKind key with
  | .date | .transferEncoding | .trailer => false
  | _ => keepsValue body key value

/-- Keys that `Set` stores as one value it overwrites: every key except
`Set-Cookie` (appended), `Connection` (kept partly in the close flag), `Date`
and `Transfer-Encoding` (ignored) and `Trailer`. -/
def lastWriteWins (key : Str) : Bool :=
  match headerKind key with
  | .contentType | .contentEncoding | .server | .contentLength | .other => true
  | _ => false

/-- A file directly under the root with the given extension: a slash, a
non-empty name without slash, and the extension. -/
def isRootFile (d ext : Str) : Bool :=
  hasPrefix d "/".toList && hasSuffix d ext && decide (ext.length + 1 < d.length)
    && !(d.drop 1).contains '/'

/-! ## Lemmas on the header stores -/

theorem headerValues_setArg_of_ne (h : List (Str × Str)) {k k1 : Str} (v : Str) (hne : k1 ≠ k) :
    headerValues (setArg h k1 v) k = headerValues h k := by
  induction h with
  | nil => simp [setArg, headerValues, hne]
  | cons e rest ih =>
    obtain ⟨k0, v0⟩ := e
    by_cases hk : k0 = k1
    · subst hk; simp [setArg, headerValues, hne]
    · simp only [setArg, beq_iff_eq, hk, if_false]
      simp only [headerValues, List.filter_cons] at ih ⊢
      split <;> simp [ih]

theorem headerValues_setArg_self (h : List (Str × Str)) (k v : Str) :
    headerValues (setArg h k v) k = v :: (headerValues h k).tail := by
  induction h with
  | nil => simp [setArg, headerValues]
  | cons e rest ih =>
    obtain ⟨k0, v0⟩ := e
    by_cases hk : k0 = k
    · subst hk
      simp [setArg, headerValues, List.filter_cons]
    · simp only [setArg, beq_iff_eq, hk, if_false]
      simp only [headerValues, List.filter_cons, beq_iff_eq, hk, if_false] at ih ⊢
      exact ih

theorem headerValues_delAllArgs_of_ne (h : List (Str × Str)) {k k1 : Str} (hne : k1 ≠ k) :
    headerValues (delAllArgs h k1) k = headerValues h k := by
  simp only [headerValues, delAllArgs, List.filter_filter]
  congr 1
  apply List.filter_congr
  intro x _
  by_cases hx : x.1 = k
  · have : x.1 ≠ k1 := fun e => hne (e.symm.trans hx)
    simp [hx, this]
    intro e; exact absurd e.symm hne
  · simp [hx]

/-- A key that falls in a case of the key switch is the name of that case. -/
theorem headerKind_name {k n : Str} {kind : HeaderKind} (h : headerKind k = kind)
    (hn : kind.name = some n) : k = n := by
  unfold headerKind at h
  split_ifs at h with h1 h2 h3 h4 h5 h6 h7 h8 h9 <;> subst h <;>
    simp only [HeaderKind.name, Option.some.injEq] at hn
  · exact (beq_iff_eq.mp h1).trans hn
  · exact (beq_iff_eq.mp h2).trans hn
  · exact (beq_iff_eq.mp h3).trans hn
  · exact (beq_iff_eq.mp h4).trans hn
  · exact (beq_iff_eq.mp h5).trans hn
  · exact (beq_iff_eq.mp h6).trans hn
  · exact (beq_iff_eq.mp h7).trans hn
  · exact (beq_iff_eq.mp h8).trans hn
  · exact (beq_iff_eq.mp h9).trans hn
  · exact absurd hn (by simp)

/-- Two distinct keys do not fall in the same special case. -/
theorem headerKind_other_of_ne {k1 k2 : Str} (hne : k1 ≠ k2)
    (h : headerKind k2 = headerKind k1) : headerKind k1 = .other := by
  cases hn : (headerKind k1).name with
  | none => cases hk : headerKind k1 <;> simp [hk, HeaderKind.name] at hn ⊢
  | some n =>
    exact absurd ((headerKind_name rfl hn).trans (headerKind_name h hn).symm) hne

/-- What setting `Connection` leaves untouched: every field but the close
flag, and the entries of every other key. -/
theorem setConnection_frame (h : ResponseHeader) (v : Str) :
    ∀ r, (if v == strClose then { h with connectionClose := true }
        else h.ResetConnectionClose.setNonSpecial strConnection v) = r →
      r.contentType = h.contentType ∧ r.contentLengthBytes = h.contentLengthBytes ∧
      r.contentEncoding = h.contentEncoding ∧ r.server = h.server ∧ r.trailer = h.trailer ∧
      r.cookies = h.cookies ∧
      ∀ k1, k1 ≠ strConnection → headerValues r.h k1 = headerValues h.h k1 := by
  intro r hr
  subst hr
  cases hv : v == strClose <;> cases hc : h.connectionClose <;>
    simp only [hc, Bool.false_eq_true, if_false, if_true, ResponseHeader.setNonSpecial,
      ResponseHeader.ResetConnectionClose, true_and] <;>
    intro k1 hk1
  · rw [headerValues_setArg_of_ne _ v (Ne.symm hk1)]
  · rw [headerValues_setArg_of_ne _ v (Ne.symm hk1),
      headerValues_delAllArgs_of_ne _ (Ne.symm hk1)]
  · trivial
  · trivial

/-- Setting one key leaves the values of every other key as they were. -/
theorem valuesOf_SetCanonical_of_ne (h : ResponseHeader) {k1 k2 : Str} (v : Str)
    (hne : k1 ≠ k2) : (h.SetCanonical k2 v).valuesOf k1 = h.valuesOf k1 := by
  have hsame := headerKind_other_of_ne hne
  have hv1 : ∀ l : List (Str × Str), headerValues (setArg l k2 v) k1 = headerValues l k1 :=
    fun l => headerValues_setArg_of_ne l v (Ne.symm hne)
  simp only [ResponseHeader.SetCanonical, ResponseHeader.setSpecialHeader]
  cases hk2 : headerKind k2 with
  | connection =>
    have e2 : k2 = strConnection := headerKind_name hk2 rfl
    subst e2
    simp only []
    obtain ⟨f1, f2, f3, f4, f5, f6, f7⟩ := setConnection_frame h v _ rfl
    have f8 := f7 k1 hne
    simp only [ResponseHeader.valuesOf]
    cases hk1 : headerKind k1 <;>
      simp only [hk1, hk2, reduceCtorEq, imp_false, not_true_eq_false] at hsame <;>
      simp only [f1, f2, f3, f4, f5, f6, f8]
  | other =>
    simp only [ResponseHeader.valuesOf, ResponseHeader.setNonSpecial, hv1]
  | contentLength =>
    simp only [ResponseHeader.valuesOf]
    cases hvl : validContentLength v with
    | false => simp only [Bool.false_eq_true, if_false]
    | true =>
      simp only [if_true]
      cases hk1 : headerKind k1 <;>
        simp only [hk1, hk2, reduceCtorEq, imp_false, not_true_eq_false] at hsame <;> rfl
  | transferEncoding => rfl
  | date => rfl
  | _ =>
    simp only [ResponseHeader.valuesOf]
    cases hk1 : headerKind k1 <;>
      simp only [hk1, hk2, reduceCtorEq, imp_false, not_true_eq_false] at hsame <;> rfl

/-- Setting a key that is stored as one value leaves the second and later
values of that key as they were. -/
theorem valuesOf_SetCanonical_tail (h : ResponseHeader) (k v : Str)
    (hk : lastWriteWins k = true) :
    ((h.SetCanonical k v).valuesOf k).tail = (h.valuesOf k).tail := by
  cases hkind : headerKind k <;>
    simp only [lastWriteWins, hkind, reduceCtorEq, ResponseHeader.SetCanonical,
      ResponseHeader.setSpecialHeader, ResponseHeader.valuesOf] at hk ⊢
  · rfl
  · cases validContentLength v
    · rfl
    · simp only [if_true]; split <;> split <;> rfl
  · split <;> split <;> rfl
  · split <;> split <;> rfl
  · simp only [ResponseHeader.setNonSpecial, headerValues_setArg_self, List.tail_cons]

/-- Setting a key that is stored as one value puts the value first, when it is
a value the key keeps. -/
theorem valuesOf_SetCanonical_self (h : ResponseHeader) (body k v : Str)
    (hk : lastWriteWins k = true) (hv : keepsValue body k v = true) :
    (h.SetCanonical k v).valuesOf k = v :: (h.valuesOf k).tail := by
  cases hkind : headerKind k <;>
    simp only [lastWriteWins, keepsValue, hkind, reduceCtorEq, Bool.and_eq_true,
      Bool.not_eq_true', List.isEmpty_eq_false, ResponseHeader.SetCanonical,
      ResponseHeader.setSpecialHeader, ResponseHeader.valuesOf] at hk hv ⊢
  · simp [hv]
  · have hne : v ≠ [] := by
      intro e; rw [e] at hv; exact absurd hv.1 (by decide)
    simp only [hv.1, if_true, beq_iff_eq, hne, if_false]; split <;> rfl
  · simp only [beq_iff_eq, hv, if_false]; split <;> rfl
  · simp only [beq_iff_eq, hv, if_false]; split <;> rfl
  · simp only [ResponseHeader.setNonSpecial, headerValues_setArg_self]

/-- Setting a key with a value that is relayed leaves the value among the
values of the key. -/
theorem mem_valuesOf_SetCanonical_self (h : ResponseHeader) (body k v : Str)
    (hv : relayedWithValue body k v = true) : v ∈ (h.SetCanonical k v).valuesOf k := by
  cases hkind : headerKind k with
  | setCookie =>
    simp [ResponseHeader.SetCanonical, ResponseHeader.setSpecialHeader,
      ResponseHeader.valuesOf, hkind]
  | connection =>
    simp only [ResponseHeader.SetCanonical, ResponseHeader.setSpecialHeader,
      ResponseHeader.valuesOf, hkind]
    cases hvc : v == strClose <;> cases hc : h.connectionClose <;>
      simp only [hc, Bool.false_eq_true, if_false, if_true, ResponseHeader.setNonSpecial,
        ResponseHeader.ResetConnectionClose, headerValues_setArg_self, List.append_nil]
    · exact List.mem_cons_self _ _
    · exact List.mem_cons_self _ _
    · rw [beq_iff_eq.mp hvc]; simp
    · rw [beq_iff_eq.mp hvc]; simp
  | contentType =>
    rw [valuesOf_SetCanonical_self h body k v (by simp [lastWriteWins, hkind])
      (by simpa [relayedWithValue, hkind] using hv)]
    exact List.mem_cons_self _ _
  | contentEncoding =>
    rw [valuesOf_SetCanonical_self h body k v (by simp [lastWriteWins, hkind])
      (by simpa [relayedWithValue, hkind] using hv)]
    exact List.mem_cons_self _ _
  | server =>
    rw [valuesOf_SetCanonical_self h body k v (by simp [lastWriteWins, hkind])
      (by simpa [relayedWithValue, hkind] using hv)]
    exact List.mem_cons_self _ _
  | contentLength =>
    rw [valuesOf_SetCanonical_self h body k v (by simp [lastWriteWins, hkind])
      (by simpa [relayedWithValue, hkind] using hv)]
    exact List.mem_cons_self _ _
  | other =>
    rw [valuesOf_SetCanonical_self h body k v (by simp [lastWriteWins, hkind])
      (by simpa [relayedWithValue, hkind] using hv)]
    exact List.mem_cons_self _ _
  | _ => simp [relayedWithValue, hkind] at hv

theorem valuesOf_setValues_of_ne (values : List Str) (h : ResponseHeader) {k a : Str}
    (hne : k ≠ normalizeHeaderKey a) : (setValues h a values).valuesOf k = h.valuesOf k := by
  induction values generalizing h with
  | nil => rfl
  | cons v vs ih =>
    have := ih (h.Set a v)
    simp only [setValues, List.foldl_cons] at this ⊢
    rw [this, ResponseHeader.Set, valuesOf_SetCanonical_of_ne h v hne]

theorem valuesOf_setValues_tail (values : List Str) (h : ResponseHeader) (a : Str)
    (hk : lastWriteWins (normalizeHeaderKey a) = true) :
    ((setValues h a values).valuesOf (normalizeHeaderKey a)).tail
      = (h.valuesOf (normalizeHeaderKey a)).tail := by
  induction values generalizing h with
  | nil => rfl
  | cons v vs ih =>
    have := ih (h.Set a v)
    simp only [setValues, List.foldl_cons] at this ⊢
    rw [this, ResponseHeader.Set, valuesOf_SetCanonical_tail h _ v hk]

theorem valuesOf_setValues_self (values : List Str) (h : ResponseHeader) (body a : Str)
    (hne : values ≠ []) (hk : lastWriteWins (normalizeHeaderKey a) = true)
    (hv : keepsValue body (normalizeHeaderKey a) (values.getLast hne) = true) :
    (setValues h a values).valuesOf (normalizeHeaderKey a)
      = values.getLast hne :: (h.valuesOf (normalizeHeaderKey a)).tail := by
  induction values generalizing h with
  | nil => exact absurd rfl hne
  | cons v vs ih =>
    cases vs with
    | nil =>
      simp only [setValues, List.foldl_cons, List.foldl_nil, List.getLast_singleton] at hv ⊢
      exact valuesOf_SetCanonical_self h body _ v hk hv
    | cons w ws =>
      have := ih (h.Set a v) (by simp) (by simpa [List.getLast_cons] using hv)
      simp only [setValues, List.foldl_cons, List.getLast_cons (List.cons_ne_nil w ws)]
        at this ⊢
      rw [this, ResponseHeader.Set, valuesOf_SetCanonical_tail h _ v hk]

theorem valuesOf_relayHeaders_of_not_mem (header : GoHeader) (h : ResponseHeader) {k : Str}
    (hk : k ∉ header.map (fun e => normalizeHeaderKey e.1)) :
    (relayHeaders header h).valuesOf k = h.valuesOf k := by
  induction header generalizing h with
  | nil => rfl
  | cons e rest ih =>
    simp only [List.map_cons, List.mem_cons, not_or] at hk
    have := ih (setValues h e.1 e.2) hk.2
    simp only [relayHeaders, List.foldl_cons] at this ⊢
    rw [this, valuesOf_setValues_of_ne e.2 h hk.1]

/-- The copy of a header map with distinct keys leaves, for a key stored as
one value, the last value of its list in front of the values the key had
after the first one. -/
theorem valuesOf_relayHeaders_self (header : GoHeader) (h : ResponseHeader) (body : Str)
    (hnodup : (header.map (fun e => normalizeHeaderKey e.1)).Nodup) {a : Str}
    {values : List Str} (hmem : (a, values) ∈ header) (hne : values ≠ [])
    (hk : lastWriteWins (normalizeHeaderKey a) = true)
    (hv : keepsValue body (normalizeHeaderKey a) (values.getLast hne) = true) :
    (relayHeaders header h).valuesOf (normalizeHeaderKey a)
      = values.getLast hne :: (h.valuesOf (normalizeHeaderKey a)).tail := by
  induction header generalizing h with
  | nil => simp at hmem
  | cons e rest ih =>
    simp only [List.map_cons, List.nodup_cons] at hnodup
    simp only [relayHeaders, List.foldl_cons]
    rcases List.mem_cons.mp hmem with heq | hrest
    · subst heq
      have := valuesOf_relayHeaders_of_not_mem rest (setValues h a values) hnodup.1
      simp only [relayHeaders] at this
      rw [this]
      exact valuesOf_setValues_self values h body a hne hk hv
    · have hkey : normalizeHeaderKey a ≠ normalizeHeaderKey e.1 := by
        intro heq
        apply hnodup.1
        rw [← heq]
        exact List.mem_map_of_mem (fun e => normalizeHeaderKey e.1) hrest
      have := ih (setValues h e.1 e.2) hnodup.2 hrest
      simp only [relayHeaders] at this
      rw [this, valuesOf_setValues_of_ne e.2 h hkey]

/-- The copy of a header map with distinct keys leaves the value of every
single-valued header that is relayed among the values of its key. -/
theorem mem_valuesOf_relayHeaders (header : GoHeader) (h : ResponseHeader) (body : Str)
    (hnodup : (header.map (fun e => normalizeHeaderKey e.1)).Nodup) {a v : Str}
    (hmem : (a, [v]) ∈ header)
    (hv : relayedWithValue body (normalizeHeaderKey a) v = true) :
    v ∈ (relayHeaders header h).valuesOf (normalizeHeaderKey a) := by
  induction header generalizing h with
  | nil => simp at hmem
  | cons e rest ih =>
    simp only [List.map_cons, List.nodup_cons] at hnodup
    simp only [relayHeaders, List.foldl_cons]
    rcases List.mem_cons.mp hmem with heq | hrest
    · subst heq
      have := valuesOf_relayHeaders_of_not_mem rest (setValues h a [v]) hnodup.1
      simp only [relayHeaders] at this
      rw [this]
      exact mem_valuesOf_SetCanonical_self h body _ v hv
    · exact ih (setValues h e.1 e.2) hnodup.2 hrest

theorem setValues_ctx (values : List Str) (c : Ctx) (k : Str) :
    values.foldl (fun acc value => acc.Set k value) c =
      { c with resp := { c.resp with header := setValues c.resp.header k values } } := by
  induction values generalizing c with
  | nil => simp [setValues]
  | cons v vs ih =>
    rw [List.foldl_cons, ih]
    simp [Ctx.Set, setValues]

theorem copyResponseHeaders_eq (header : GoHeader) (c : Ctx) :
    copyResponseHeaders header c =
      { c with resp := { c.resp with header := relayHeaders header c.resp.header } } := by
  induction header generalizing c with
  | nil => simp [copyResponseHeaders, relayHeaders]
  | cons e rest ih =>
    have := ih ({ c with resp := { c.resp with header := setValues c.resp.header e.1 e.2 } })
    simp only [copyResponseHeaders, List.foldl_cons, setValues_ctx] at this ⊢
    simp [this, relayHeaders]

/-- When an outbound call of `forward` returned a response, the final context
is the relay of that response. -/
theorem forward_of_call (net : Net) (c : Ctx) (url msg : Str) {req : ProxyReq}
    {up : UpstreamResp} (hcall : req ∈ (forward net c url msg).calls)
    (hdo : net.clientDo req = some up) :
    (forward net c url msg).ctx =
      ((copyResponseHeaders up.header c).Status up.statusCode).Send up.body := by
  unfold forward at hcall ⊢
  split at hcall
  · simp at hcall
  · rename_i hok
    simp only [hok, if_false]
    cases hd : net.clientDo (outboundRequest c url) with
    | none =>
      simp only [hd, List.mem_singleton] at hcall
      rw [hcall, hd] at hdo
      exact absurd hdo (by simp)
    | some resp =>
      simp only [hd, List.mem_singleton] at hcall
      rw [hcall, hd] at hdo
      cases hdo
      rfl

/-- The same for either proxy function. -/
theorem runProxy_of_call (appPort : Str) (net : Net) (c : Ctx) (p : Proxy) {req : ProxyReq}
    {up : UpstreamResp} (hcall : req ∈ (runProxy appPort net c p).calls)
    (hdo : net.clientDo req = some up) :
    (runProxy appPort net c p).ctx =
      ((copyResponseHeaders up.header c).Status up.statusCode).Send up.body := by
  cases p with
  | proxyToNextJSAPI => exact forward_of_call net c _ _ hcall hdo
  | proxyToNextJS => exact forward_of_call net c _ _ hcall hdo

/-! ## Lemmas on the router -/

theorem trimRight_cons_of_ne (x : Char) (xs : Str) (cutset : Char) (h : x ≠ cutset) :
    trimRight (x :: xs) cutset = x :: trimRight xs cutset := by
  simp only [trimRight]
  split
  · rename_i heq; simp [heq, h]
  · rename_i y ys heq; simp [heq]

theorem trimRight_cons_of_nonempty (x : Char) (xs : Str) (cutset : Char)
    (h : trimRight xs cutset ≠ []) : trimRight (x :: xs) cutset = x :: trimRight xs cutset := by
  simp only [trimRight]
  split
  · rename_i heq; exact absurd heq h
  · rename_i y ys heq; simp [heq]

theorem trimRight_cons_cons_of_ne (x y : Char) (ys : Str) (cutset : Char) (h : y ≠ cutset) :
    trimRight (x :: y :: ys) cutset = x :: trimRight (y :: ys) cutset :=
  trimRight_cons_of_nonempty x (y :: ys) cutset
    (by rw [trimRight_cons_of_ne y ys cutset h]; simp)

/-- A path under `/web/api/` keeps `/web/api` at the front of its detection
path. -/
theorem detectionPath_web_api (t : Str) :
    ∃ u, detectionPath ("/web/api/".toList ++ t) = "/web/api".toList ++ u := by
  unfold detectionPath
  have hl : toLower ("/web/api/".toList ++ t) = "/web/api".toList ++ ('/' :: toLower t) := by
    simp [toLower]
  simp only [hl]
  split
  · refine ⟨trimRight ('/' :: toLower t) '/', ?_⟩
    show trimRight ('/' :: 'w' :: 'e' :: 'b' :: '/' :: 'a' :: 'p' :: 'i' :: '/' :: toLower t) '/' = _
    rw [trimRight_cons_cons_of_ne _ _ _ _ (by decide), trimRight_cons_of_ne _ _ _ (by decide),
      trimRight_cons_of_ne _ _ _ (by decide), trimRight_cons_of_ne _ _ _ (by decide),
      trimRight_cons_cons_of_ne _ _ _ _ (by decide), trimRight_cons_of_ne _ _ _ (by decide),
      trimRight_cons_of_ne _ _ _ (by decide), trimRight_cons_of_ne _ _ _ (by decide)]
    rfl
  · exact ⟨_, rfl⟩

theorem routeWeb_isMatch_of_web_api (u : Str) :
    routeWeb.isMatch ("/web/api".toList ++ u) = true := by
  simp [Route.isMatch, routeWeb, getMatch, constSeg, wildcardSeg, findParamLen,
    findParamLenForLastSegment]

/-- How a pattern that starts with a constant can match: the detection path
is the constant without its optional closing slash, or it starts with the
constant and the rest of the pattern matches what follows. -/
theorem getMatch_const_cases (text : Str) (isLast optSlash : Bool) (segs : List routeSegment)
    (d : Str) (h : getMatch (constSeg text isLast optSlash :: segs) d = true) :
    (optSlash = true ∧ d = text.take (text.length - 1)) ∨
    (text <+: d ∧ getMatch segs (d.drop text.length) = true) := by
  simp only [getMatch, constSeg, Bool.not_false, if_true] at h
  split at h
  · rename_i h1
    simp only [Bool.and_eq_true, beq_iff_eq] at h1
    exact Or.inl ⟨h1.1.1, h1.2⟩
  · split at h
    · rename_i h2
      simp only [Bool.and_eq_true, beq_iff_eq, decide_eq_true_eq] at h2
      refine Or.inr ⟨?_, h⟩
      rw [← h2.2]; exact List.take_prefix _ _
    · exact absurd h (by simp)

/-- A route whose pattern starts with a constant only matches detection
paths that start with that constant, its closing byte left aside. -/
theorem getMatch_const_starts (text : Str) (isLast optSlash : Bool) (segs : List routeSegment)
    (d : Str) (h : getMatch (constSeg text isLast optSlash :: segs) d = true) :
    hasPrefix d (text.take (text.length - 1)) = true := by
  rw [hasPrefix, List.isPrefixOf_iff_prefix]
  rcases getMatch_const_cases text isLast optSlash segs d h with ⟨_, h1⟩ | ⟨h1, _⟩
  · rw [h1]
  · exact ( List.take_prefix _ _).trans h1

theorem routeWeb_isMatch_starts (d : Str) (h : routeWeb.isMatch d = true) :
    hasPrefix d "/web".toList = true := by
  simp only [Route.isMatch, Bool.or_eq_true, beq_iff_eq] at h
  rcases h with h | h
  · exact getMatch_const_starts _ _ _ _ d h
  · rw [h]; decide

theorem routeDevHelpers_isMatch_starts (d : Str) (h : routeDevHelpers.isMatch d = true) :
    hasPrefix d "/__next".toList = true := by
  simp only [Route.isMatch, Bool.or_eq_true, beq_iff_eq] at h
  rcases h with h | h
  · rcases getMatch_const_cases _ _ _ _ d h with ⟨h0, _⟩ | ⟨h1, _⟩
    · exact absurd h0 (by simp)
    · rw [hasPrefix, List.isPrefixOf_iff_prefix]; exact h1
  · rw [h]; decide

theorem indexByte_none (l : Str) (ch : Char) (h : indexByte l ch = none) : ch ∉ l := by
  induction l with
  | nil => simp
  | cons x xs ih =>
    simp only [indexByte] at h
    split at h
    · exact absurd h (by simp)
    · rename_i hx
      simp only [Option.map_eq_none'] at h
      simp only [List.mem_cons, not_or]
      exact ⟨fun e => hx (by simp [e]), ih h⟩

/-- How a pattern that starts with a parameter can match: the parameter takes
the bytes `findParamLen` gives it, at least one unless it is optional, and the
rest of the pattern matches what follows. -/
theorem getMatch_param_step (seg : routeSegment) (segs : List routeSegment) (d : Str)
    (hseg : seg.IsParam = true) (h : getMatch (seg :: segs) d = true) :
    (seg.IsOptional = false → findParamLen d seg ≠ 0) ∧
    getMatch segs (d.drop (findParamLen d seg)) = true := by
  simp only [getMatch, hseg, Bool.not_true, Bool.false_eq_true, if_false] at h
  split at h
  · exact absurd h (by simp)
  · rename_i hcond
    refine ⟨fun hopt hz => hcond ?_, h⟩
    simp [hopt, hz]

/-- A named parameter followed by an extension of several bytes takes no
slash. -/
theorem findParamLen_paramSeg_no_slash (s ext : Str) (hlen : (ext.length == 1) = false)
    (hi : findParamLen s (paramSeg ext 1 false) ≠ 0)
    (hdrop : s.drop (findParamLen s (paramSeg ext 1 false)) ≠ []) :
    '/' ∉ s.take (findParamLen s (paramSeg ext 1 false)) := by
  have hf : findParamLen s (paramSeg ext 1 false) =
      (match index s ext with
        | some constPosition =>
          if (indexByte (s.take constPosition) '/').isSome then 0 else constPosition
        | none => s.length) := by
    simp [findParamLen, paramSeg, hlen]
  rw [hf] at hi hdrop ⊢
  cases hidx : index s ext with
  | none => simp [hidx] at hdrop
  | some pos =>
    simp only [hidx] at hi ⊢
    split at hi
    · exact absurd rfl hi
    · rename_i hno
      simp only [hno, Bool.false_eq_true, if_false]
      apply indexByte_none
      cases hib : indexByte (List.take pos s) '/' with
      | none => rfl
      | some j => simp [hib] at hno

/-- The file routes only match a root-level file name with the extension. -/
theorem routeFile_isMatch_rootFile (ext d : Str) (hlen : (ext.length == 1) = false)
    (hne : ext ≠ []) (hslash : '/' ∉ ext) (h : (routeFile ext).isMatch d = true) :
    isRootFile d ext = true := by
  simp only [Route.isMatch, Bool.or_eq_true, beq_iff_eq] at h
  rcases h with h | h
  · rcases getMatch_const_cases _ _ _ _ d h with ⟨h0, _⟩ | ⟨h1, h2⟩
    · exact absurd h0 (by simp)
    · obtain ⟨s, hs⟩ := h1
      subst hs
      simp only [List.drop_left] at h2
      obtain ⟨h3, h4⟩ := getMatch_param_step _ _ s rfl h2
      have hi := h3 rfl
      rcases getMatch_const_cases _ _ _ _ _ h4 with ⟨h0, _⟩ | ⟨h5, h6⟩
      · exact absurd h0 (by simp)
      · obtain ⟨t, ht⟩ := h5
        rw [← ht] at h6
        simp only [getMatch, List.drop_left, List.isEmpty_iff] at h6
        rw [h6, List.append_nil] at ht
        have hno := findParamLen_paramSeg_no_slash s ext hlen hi (by rw [← ht]; exact hne)
        generalize findParamLen s (paramSeg ext 1 false) = i at hi ht hno
        have hsplit : s = s.take i ++ ext := by
          rw [ht]; exact (List.take_append_drop i s).symm
        have hlenS : ext.length < s.length := by
          have hl := congrArg List.length hsplit
          have hpos : 0 < (s.take i).length := by
            rw [List.length_take]
            have : 0 < s.length := by
              rw [hl, List.length_append]
              have := List.length_pos.mpr hne
              omega
            omega
          rw [List.length_append] at hl
          omega
        have hnoS : '/' ∉ s := by
          rw [hsplit]
          simp only [List.mem_append, not_or]
          exact ⟨hno, hslash⟩
        have hsuf : ext <:+ "/".toList ++ s := by
          rw [hsplit, ← List.append_assoc]
          exact List.suffix_append _ _
        simp only [isRootFile, hasPrefix, hasSuffix, List.drop_left, Bool.and_eq_true,
          Bool.not_eq_true', decide_eq_true_eq, List.isPrefixOf_iff_prefix,
          List.isSuffixOf_iff_suffix, List.length_append]
        refine ⟨⟨⟨ List.prefix_append _ _, hsuf⟩, by simp; omega⟩, ?_⟩
        simpa [List.contains] using hnoS
  · subst h
    have hsuf : ext <:+ (routeFile ext).path := List.suffix_append _ _
    have hno : '/' ∉ ":file".toList ++ ext := by
      simp only [List.mem_append, not_or]
      exact ⟨by decide, hslash⟩
    simp only [isRootFile, hasPrefix, hasSuffix, Bool.and_eq_true, Bool.not_eq_true',
      decide_eq_true_eq, List.isPrefixOf_iff_prefix, List.isSuffixOf_iff_suffix]
    refine ⟨⟨⟨⟨":file".toList ++ ext, rfl⟩, hsuf⟩, by simp [routeFile]⟩, ?_⟩
    have hd : (routeFile ext).path.drop 1 = ":file".toList ++ ext := rfl
    rw [hd]
    simpa [List.contains] using hno

/-- The route of the asset namespace only matches the namespace root and the
paths under it. -/
theorem routeNextAssets_isMatch_cases (d : Str) (h : routeNextAssets.isMatch d = true) :
    d = "/_next".toList ∨ hasPrefix d "/_next/".toList = true := by
  simp only [Route.isMatch, Bool.or_eq_true, beq_iff_eq] at h
  rcases h with h | h
  · rcases getMatch_const_cases _ _ _ _ d h with ⟨_, h1⟩ | ⟨h1, _⟩
    · exact Or.inl h1
    · exact Or.inr (List.isPrefixOf_iff_prefix.mpr h1)
  · rw [h]; exact Or.inr (by decide)

/-! ## C1: dispatch of the `/web/*` handler -/

/-- C1: with the routes registered, a request whose path starts with
`/web/api/` is matched by `/web/*` and dispatched to `proxyToNextJSAPI`,
whose outbound calls go to `http://localhost:` followed by the configured
port, and a request matched by `/web/*` whose path does not start with
`/web/api/` is dispatched to `proxyToNextJS`, whose outbound calls go to
`http://localhost:3001`. -/
theorem web_route_dispatch (st : StatResult) (appPort : Str) (net : Net) (c : Ctx)
    (hst : st.isNotExist = false) :
    (hasPrefix c.path "/web/api/".toList = true →
      routeWeb.isMatch (detectionPath c.path) = true ∧
      next (setupNextJSServe st).routes c.path = some Proxy.proxyToNextJSAPI ∧
      serve (setupNextJSServe st) appPort net c = some (proxyToNextJSAPI appPort net c)) ∧
    (routeWeb.isMatch (detectionPath c.path) = true →
      hasPrefix c.path "/web/api/".toList = false →
      next (setupNextJSServe st).routes c.path = some Proxy.proxyToNextJS ∧
      serve (setupNextJSServe st) appPort net c = some (proxyToNextJS net c)) ∧
    (∀ req ∈ (proxyToNextJSAPI appPort net c).calls,
      hasPrefix req.url ("http://localhost:".toList ++ appPort) = true) ∧
    (∀ req ∈ (proxyToNextJS net c).calls,
      hasPrefix req.url "http://localhost:3001".toList = true) := by
  have hurl : ∀ url msg, ∀ req ∈ (forward net c url msg).calls, req.url = url := by
    intro url msg req hreq
    unfold forward at hreq
    split at hreq
    · simp at hreq
    · split at hreq <;> simp at hreq <;> subst hreq <;> rfl
  refine ⟨?_, ?_, ?_, ?_⟩
  · intro h
    obtain ⟨t, ht⟩ := List.isPrefixOf_iff_prefix.mp h
    obtain ⟨u, hu⟩ := detectionPath_web_api t
    have hm : routeWeb.isMatch (detectionPath c.path) = true := by
      rw [← ht, hu]; exact routeWeb_isMatch_of_web_api u
    have hn : next (setupNextJSServe st).routes c.path = some Proxy.proxyToNextJSAPI := by
      simp only [setupNextJSServe, hst, Bool.false_eq_true, if_false, next, hm, if_true]
      show some (webHandler c.path) = _
      simp only [webHandler, h, if_true]
    exact ⟨hm, hn, by simp [serve, hn, runProxy]⟩
  · intro hm h
    have hn : next (setupNextJSServe st).routes c.path = some Proxy.proxyToNextJS := by
      simp only [setupNextJSServe, hst, Bool.false_eq_true, if_false, next, hm, if_true]
      show some (webHandler c.path) = _
      simp only [webHandler, h, Bool.false_eq_true, if_false]
    exact ⟨hn, by simp [serve, hn, runProxy]⟩
  · intro req hreq
    rw [hurl _ _ req hreq, hasPrefix, List.isPrefixOf_iff_prefix, apiTargetURL]
    exact List.prefix_append _ _
  · intro req hreq
    rw [hurl _ _ req hreq, hasPrefix, List.isPrefixOf_iff_prefix, nextTargetURL]
    exact List.prefix_append _ _

/-- Witness for `web_route_dispatch`: `GET /web/api/send` with the project
directory present. -/
theorem web_route_dispatch_witness :
    next (setupNextJSServe StatResult.found).routes "/web/api/send".toList
      = some Proxy.proxyToNextJSAPI :=
  ((web_route_dispatch StatResult.found "3000".toList refusingNet
    (getRequest "/web/api/send".toList []) rfl).1 (by decide)).2.1

/-! ## C2: path rewriting of `proxyToNextJSAPI` -/

/-- C2, as stated, fails: for `/web/api/send` the path appended to the backend
base URL is `/api/send`, which is the request path without `/web` only, not
the request path without the namespace-plus-API prefix. -/
theorem apiPath_keeps_api_segment :
    hasPrefix "/web/api/send".toList "/web/api/".toList = true ∧
    apiPath "/web/api/send".toList = "/api/send".toList ∧
    apiPath "/web/api/send".toList ≠ specRewrittenPath "/web/api/send".toList ∧
    apiPath "/web/api/send".toList ≠ specRewrittenPathSlash "/web/api/send".toList ∧
    apiTargetURL "3000".toList "/web/api/send".toList =
      "http://localhost:3000/api/send".toList := by
  decide

/-- C2, amended: for a request path under `/web/api/` the rewritten path is
the request path with the namespace prefix `/web` removed, so it still starts
with `/api/`; the target URL is `http://localhost:` followed by the port and
the rewritten path, and every outbound call of `proxyToNextJSAPI` goes to
that URL, exactly one call when the request can be built. -/
theorem apiPath_strips_namespace_only (appPort : Str) (net : Net) (c : Ctx)
    (h : hasPrefix c.path "/web/api/".toList = true) :
    c.path = "/web".toList ++ apiPath c.path ∧
    hasPrefix (apiPath c.path) "/api/".toList = true ∧
    apiTargetURL appPort c.path = "http://localhost:".toList ++ appPort ++ apiPath c.path ∧
    (∀ req ∈ (proxyToNextJSAPI appPort net c).calls,
      req.url = "http://localhost:".toList ++ appPort ++ apiPath c.path) ∧
    (net.newRequestOk c.method (apiTargetURL appPort c.path) = true →
      (proxyToNextJSAPI appPort net c).calls.length = 1) := by
  obtain ⟨t, ht⟩ := List.isPrefixOf_iff_prefix.mp h
  have hp : apiPath c.path = "/api/".toList ++ t := by
    rw [← ht]; simp [apiPath, trimPrefix, hasPrefix]
  refine ⟨?_, ?_, rfl, ?_, ?_⟩
  · rw [hp, ← ht]; simp
  · rw [hp]; simp [hasPrefix]
  · intro req hreq
    unfold proxyToNextJSAPI forward at hreq
    split at hreq
    · simp at hreq
    · split at hreq <;> simp at hreq <;> subst hreq <;> rfl
  · intro hok
    unfold proxyToNextJSAPI forward
    simp only [hok, Bool.not_true, Bool.false_eq_true, if_false]
    split <;> rfl

/-- Witness for `apiPath_strips_namespace_only`: the request `GET
/web/api/send` on port 3000. -/
theorem apiPath_strips_namespace_only_witness :
    apiPath "/web/api/send".toList = "/api/send".toList ∧
    (proxyToNextJSAPI "3000".toList refusingNet
      (getRequest "/web/api/send".toList [])).calls.length = 1 :=
  ⟨by decide,
    (apiPath_strips_namespace_only "3000".toList refusingNet
      (getRequest "/web/api/send".toList []) (by decide)).2.2.2.2 (by decide)⟩

/-! ## C3: path forwarded by `proxyToNextJS` -/

/-- C3, evaluated at the request path `/website.png`: the path is not in the
`/web/*` namespace, the route `/:file.png` hands it to `proxyToNextJS`, and
the path that function computes is `site.png` instead of `/website.png`,
which gives the target `http://localhost:3001site.png`, a URL no request can
be built for. -/
theorem nextPath_website_png :
    routeWeb.isMatch (detectionPath "/website.png".toList) = false ∧
    (routeFile ".png".toList).isMatch (detectionPath "/website.png".toList) = true ∧
    next (setupNextJSServe StatResult.found).routes "/website.png".toList
      = some Proxy.proxyToNextJS ∧
    nextPath "/website.png".toList = "site.png".toList ∧
    nextPath "/website.png".toList ≠ "/website.png".toList ∧
    nextTargetURL "/website.png".toList = "http://localhost:3001site.png".toList := by
  decide

/-! ## C4: paths outside the registered patterns -/

/-- C4, as stated, fails: `/_next/static/app.js` does not start with `/web`,
yet the route `/_next/*` hands it to `proxyToNextJS`, which makes an outbound
call to the dev server. -/
theorem next_assets_path_is_proxied :
    hasPrefix "/_next/static/app.js".toList "/web".toList = false ∧
    next (setupNextJSServe StatResult.found).routes "/_next/static/app.js".toList
      = some Proxy.proxyToNextJS ∧
    (outboundCalls (serve (setupNextJSServe StatResult.found) "3000".toList refusingNet
      (getRequest "/_next/static/app.js".toList []))).map (fun req => req.url)
      = ["http://localhost:3001/_next/static/app.js".toList] := by
  decide

/-- C4, amended: a request whose path, as the router compares it (lower-cased,
trailing slashes dropped), does not start with `/web`, is neither `/_next`
nor under `/_next/`, does not start with `/__next`, and is not a root-level
file name ending in `.svg`, `.png` or `.jpg` (a slash, a non-empty name
without slash, the extension), is handled by none of the routes of
`setupNextJSServe`: no proxy function runs and no outbound call is made. -/
theorem outside_patterns_not_applicable (st : StatResult) (appPort : Str) (net : Net) (c : Ctx)
    (hweb : hasPrefix (detectionPath c.path) "/web".toList = false)
    (hroot : detectionPath c.path ≠ "/_next".toList)
    (hnext : hasPrefix (detectionPath c.path) "/_next/".toList = false)
    (hdev : hasPrefix (detectionPath c.path) "/__next".toList = false)
    (hsvg : isRootFile (detectionPath c.path) ".svg".toList = false)
    (hpng : isRootFile (detectionPath c.path) ".png".toList = false)
    (hjpg : isRootFile (detectionPath c.path) ".jpg".toList = false) :
    next (setupNextJSServe st).routes c.path = none ∧
    (serve (setupNextJSServe st) appPort net c).isNone = true ∧
    outboundCalls (serve (setupNextJSServe st) appPort net c) = [] := by
  have no {r : Route} {pre : Bool} (hr : r.isMatch (detectionPath c.path) = true → pre = true)
      (hpre : pre = false) : r.isMatch (detectionPath c.path) = false := by
    cases hm : r.isMatch (detectionPath c.path) with
    | false => rfl
    | true => rw [hr hm] at hpre; exact absurd hpre (by simp)
  have h1 := no (routeWeb_isMatch_starts _) hweb
  have h2 : routeNextAssets.isMatch (detectionPath c.path) = false := by
    cases hm : routeNextAssets.isMatch (detectionPath c.path) with
    | false => rfl
    | true =>
      rcases routeNextAssets_isMatch_cases _ hm with e | e
      · exact absurd e hroot
      · rw [e] at hnext; exact absurd hnext (by simp)
  have h3 := no (routeFile_isMatch_rootFile ".svg".toList _ (by decide) (by decide) (by decide))
    hsvg
  have h4 := no (routeFile_isMatch_rootFile ".png".toList _ (by decide) (by decide) (by decide))
    hpng
  have h5 := no (routeFile_isMatch_rootFile ".jpg".toList _ (by decide) (by decide) (by decide))
    hjpg
  have h6 := no (routeDevHelpers_isMatch_starts _) hdev
  have hn : next (setupNextJSServe st).routes c.path = none := by
    unfold setupNextJSServe
    split
    · rfl
    · simp only [next, h1, h2, h3, h4, h5, h6, Bool.false_eq_true, if_false]
  exact ⟨hn, by simp [serve, hn], by simp [serve, hn, outboundCalls]⟩

/-- Witness for `outside_patterns_not_applicable`: `GET /statics/logo.png`,
an image that is not at the root, and `GET /_nextfoo`, a path that only shares
letters with the asset namespace. -/
theorem outside_patterns_not_applicable_witness :
    next (setupNextJSServe StatResult.found).routes "/statics/logo.png".toList = none ∧
    next (setupNextJSServe StatResult.found).routes "/_nextfoo".toList = none :=
  ⟨(outside_patterns_not_applicable StatResult.found "3000".toList refusingNet
      (getRequest "/statics/logo.png".toList []) (by decide) (by decide) (by decide)
      (by decide) (by decide) (by decide) (by decide)).1,
    (outside_patterns_not_applicable StatResult.found "3000".toList refusingNet
      (getRequest "/_nextfoo".toList []) (by decide) (by decide) (by decide)
      (by decide) (by decide) (by decide) (by decide)).1⟩

/-! ## C5: response round trip -/

/-- C5, as stated, fails: for an upstream response with status 200, the single
header `Date: Mon, 01 Jan 2024 00:00:00 GMT` and body `hello`, the relayed
response has the status and the body, but `c.Set` ignores the key `Date`, so
the response carries no `Date` value from the upstream and its header state
is the one it had before the copy. -/
theorem relay_ignores_upstream_date :
    (runProxy "3000".toList
      (answeringNet ⟨200, [("Date".toList, ["Mon, 01 Jan 2024 00:00:00 GMT".toList])],
        "hello".toList⟩)
      (getRequest "/web/".toList []) Proxy.proxyToNextJS).ctx.resp.status = 200 ∧
    (runProxy "3000".toList
      (answeringNet ⟨200, [("Date".toList, ["Mon, 01 Jan 2024 00:00:00 GMT".toList])],
        "hello".toList⟩)
      (getRequest "/web/".toList []) Proxy.proxyToNextJS).ctx.resp.body = "hello".toList ∧
    (runProxy "3000".toList
      (answeringNet ⟨200, [("Date".toList, ["Mon, 01 Jan 2024 00:00:00 GMT".toList])],
        "hello".toList⟩)
      (getRequest "/web/".toList []) Proxy.proxyToNextJS).ctx.resp.values "Date".toList = [] ∧
    (runProxy "3000".toList
      (answeringNet ⟨200, [("Date".toList, ["Mon, 01 Jan 2024 00:00:00 GMT".toList])],
        "hello".toList⟩)
      (getRequest "/web/".toList []) Proxy.proxyToNextJS).ctx.resp.header = emptyHeader := by
  decide

/-- C5, amended: when the outbound call of either proxy function returned a
response with status `s`, a header map with distinct keys and body `b`, the
response relayed to the caller has status `s` and body `b`, and carries every
single-valued header of the upstream response with its value, except a `Date`
or `Transfer-Encoding` header, which `c.Set` ignores, a `Trailer` header, a
`Content-Length` that does not state the length of `b` in digits, and a
`Content-Type`, `Content-Encoding` or `Server` header with an empty value. -/
theorem relay_round_trip (appPort : Str) (net : Net) (c : Ctx) (p : Proxy) (req : ProxyReq)
    (up : UpstreamResp) (hcall : req ∈ (runProxy appPort net c p).calls)
    (hdo : net.clientDo req = some up)
    (hnodup : (up.header.map (fun e => normalizeHeaderKey e.1)).Nodup) :
    (runProxy appPort net c p).ctx.resp.status = up.statusCode ∧
    (runProxy appPort net c p).ctx.resp.body = up.body ∧
    ∀ k v, (k, [v]) ∈ up.header → relayedWithValue up.body (normalizeHeaderKey k) v = true →
      v ∈ (runProxy appPort net c p).ctx.resp.values k := by
  rw [runProxy_of_call appPort net c p hcall hdo, copyResponseHeaders_eq]
  refine ⟨rfl, rfl, ?_⟩
  intro k v hmem hv
  exact mem_valuesOf_relayHeaders up.header c.resp.header up.body hnodup hmem hv

/-- Witness for `relay_round_trip`: upstream status 200, headers `X-Test: 1`,
`Content-Type: text/plain` and `Content-Length: 5`, body `hello`, relayed by
`proxyToNextJS` for `GET /web/`. -/
theorem relay_round_trip_witness :
    (runProxy "3000".toList
      (answeringNet ⟨200, [("X-Test".toList, ["1".toList]),
        ("Content-Type".toList, ["text/plain".toList]),
        ("Content-Length".toList, ["5".toList])], "hello".toList⟩)
      (getRequest "/web/".toList []) Proxy.proxyToNextJS).ctx.resp.status = 200 ∧
    (runProxy "3000".toList
      (answeringNet ⟨200, [("X-Test".toList, ["1".toList]),
        ("Content-Type".toList, ["text/plain".toList]),
        ("Content-Length".toList, ["5".toList])], "hello".toList⟩)
      (getRequest "/web/".toList []) Proxy.proxyToNextJS).ctx.resp.body = "hello".toList ∧
    "1".toList ∈ (runProxy "3000".toList
      (answeringNet ⟨200, [("X-Test".toList, ["1".toList]),
        ("Content-Type".toList, ["text/plain".toList]),
        ("Content-Length".toList, ["5".toList])], "hello".toList⟩)
      (getRequest "/web/".toList []) Proxy.proxyToNextJS).ctx.resp.values "X-Test".toList ∧
    "text/plain".toList ∈ (runProxy "3000".toList
      (answeringNet ⟨200, [("X-Test".toList, ["1".toList]),
        ("Content-Type".toList, ["text/plain".toList]),
        ("Content-Length".toList, ["5".toList])], "hello".toList⟩)
      (getRequest "/web/".toList []) Proxy.proxyToNextJS).ctx.resp.values
        "Content-Type".toList ∧
    "5".toList ∈ (runProxy "3000".toList
      (answeringNet ⟨200, [("X-Test".toList, ["1".toList]),
        ("Content-Type".toList, ["text/plain".toList]),
        ("Content-Length".toList, ["5".toList])], "hello".toList⟩)
      (getRequest "/web/".toList []) Proxy.proxyToNextJS).ctx.resp.values
        "Content-Length".toList :=
  have h := relay_round_trip "3000".toList
    (answeringNet ⟨200, [("X-Test".toList, ["1".toList]),
      ("Content-Type".toList, ["text/plain".toList]),
      ("Content-Length".toList, ["5".toList])], "hello".toList⟩)
    (getRequest "/web/".toList []) Proxy.proxyToNextJS
    (outboundRequest (getRequest "/web/".toList []) (nextTargetURL "/web/".toList))
    ⟨200, [("X-Test".toList, ["1".toList]), ("Content-Type".toList, ["text/plain".toList]),
      ("Content-Length".toList, ["5".toList])], "hello".toList⟩
    (List.mem_singleton.mpr rfl) rfl (by decide)
  ⟨h.1, h.2.1, h.2.2 "X-Test".toList "1".toList (by decide) (by decide),
    h.2.2 "Content-Type".toList "text/plain".toList (by decide) (by decide),
    h.2.2 "Content-Length".toList "5".toList (by decide) (by decide)⟩

/-! ## C6: upstream failures -/

/-- C6: when the outbound call was made and failed, the caller gets status
502 with the fixed body of the proxy function that ran, `Backend server
unavailable` for `proxyToNextJSAPI` and `Next.js server unavailable` for
`proxyToNextJS`; the two bodies differ, and the response headers are the ones
the response already had, nothing of an upstream being relayed. -/
theorem unavailable_upstream_gives_502 (appPort : Str) (net : Net) (c : Ctx) (p : Proxy)
    (hcalled : (runProxy appPort net c p).calls ≠ [])
    (hfail : ∀ req ∈ (runProxy appPort net c p).calls, net.clientDo req = none) :
    (runProxy appPort net c p).ctx.resp.status = 502 ∧
    (runProxy appPort net c p).ctx.resp.body =
      (match p with
        | .proxyToNextJSAPI => "Backend server unavailable".toList
        | .proxyToNextJS => "Next.js server unavailable".toList) ∧
    (runProxy appPort net c p).ctx.resp.header = c.resp.header ∧
    "Backend server unavailable".toList ≠ "Next.js server unavailable".toList := by
  have key : ∀ url msg, (forward net c url msg).calls ≠ [] →
      (∀ req ∈ (forward net c url msg).calls, net.clientDo req = none) →
      (forward net c url msg).ctx.resp.status = 502 ∧
      (forward net c url msg).ctx.resp.body = msg ∧
      (forward net c url msg).ctx.resp.header = c.resp.header := by
    intro url msg h1 h2
    unfold forward at h1 h2 ⊢
    split at h1
    · exact absurd rfl h1
    · rename_i hok
      simp only [hok, if_false] at h2 ⊢
      cases hdo : net.clientDo (outboundRequest c url) with
      | none => simp [Ctx.Status, Ctx.Send]
      | some resp =>
        simp only [hdo] at h2
        have := h2 (outboundRequest c url) (by simp)
        rw [hdo] at this
        exact absurd this (by simp)
  cases p with
  | proxyToNextJSAPI =>
    obtain ⟨a, b, d⟩ := key (apiTargetURL appPort c.path) "Backend server unavailable".toList
      hcalled hfail
    exact ⟨a, b, d, by decide⟩
  | proxyToNextJS =>
    obtain ⟨a, b, d⟩ := key (nextTargetURL c.path) "Next.js server unavailable".toList
      hcalled hfail
    exact ⟨a, b, d, by decide⟩

/-- Witness for `unavailable_upstream_gives_502`: `GET /web/` while the dev
server is not listening. -/
theorem unavailable_upstream_gives_502_witness :
    (runProxy "3000".toList refusingNet (getRequest "/web/".toList [])
      Proxy.proxyToNextJS).ctx.resp.status = 502 :=
  (unavailable_upstream_gives_502 "3000".toList refusingNet (getRequest "/web/".toList [])
    Proxy.proxyToNextJS (List.ne_nil_of_length_pos (by decide)) (by intro req _; rfl)).1

/-! ## C7: missing project directory -/

/-- C7, as stated, fails: with the project directory absent no route is
registered, and the namespace request `GET /web/` is not handled by the proxy
even though the upstream is unreachable, so no status 502 comes from it. -/
theorem absent_directory_registers_no_route :
    (setupNextJSServe StatResult.notExist).routes.length = 0 ∧
    next (setupNextJSServe StatResult.notExist).routes "/web/".toList = none ∧
    ((serve (setupNextJSServe StatResult.notExist) "3000".toList refusingNet
      (getRequest "/web/".toList [])).map (fun o => o.ctx.resp.status)) = none ∧
    ((serve (setupNextJSServe StatResult.found) "3000".toList refusingNet
      (getRequest "/web/".toList [])).map (fun o => o.ctx.resp.status)) = some 502 := by
  decide

/-- C7, amended: when the project directory does not exist, the boot step
launches no process and `setupNextJSServe` registers none of the proxying
routes, so a later request, in the namespace or not, is not handled by the
proxy and causes no outbound call. -/
theorem absent_directory_no_process_no_route (os : OS) (appPort : Str) (net : Net) (c : Ctx)
    (h : os.statProject = StatResult.notExist) :
    (bootStep os appPort).countP Action.isProcess = 0 ∧
    (setupNextJSServe os.statProject).launched = false ∧
    (setupNextJSServe os.statProject).routes = [] ∧
    (serve (setupNextJSServe os.statProject) appPort net c).isNone = true ∧
    outboundCalls (serve (setupNextJSServe os.statProject) appPort net c) = [] := by
  simp [h, bootStep, setupNextJSServe, StatResult.isNotExist, serve, next, outboundCalls,
    Action.isProcess]

/-- Witness for `absent_directory_no_process_no_route`: no directory, and a
request for `/web/`. -/
theorem absent_directory_no_process_no_route_witness :
    (serve (setupNextJSServe StatResult.notExist) "3000".toList refusingNet
      (getRequest "/web/".toList [])).isNone = true :=
  (absent_directory_no_process_no_route
    ⟨StatResult.notExist, StatResult.notExist, true, true, [], []⟩ "3000".toList refusingNet
    (getRequest "/web/".toList []) rfl).2.2.2.1

/-! ## C8: request header copy -/

/-- C8, evaluated at an inbound request that repeats the key
`Accept-Language` with the values `en` and `fr`: the outbound request built
by either proxy function carries the key with the single value `fr`; the
entry with `en` is not on it. -/
theorem repeated_request_header_keeps_last_only :
    copyRequestHeaders
      [("Accept-Language".toList, "en".toList), ("Accept-Language".toList, "fr".toList)] []
      = [("Accept-Language".toList, ["fr".toList])] ∧
    (proxyToNextJS refusingNet (getRequest "/web/".toList
      [("Accept-Language".toList, "en".toList), ("Accept-Language".toList, "fr".toList)])).calls.map
        (fun req => req.header.values "Accept-Language".toList) = [["fr".toList]] ∧
    (proxyToNextJSAPI "3000".toList refusingNet (getRequest "/web/api/send".toList
      [("Accept-Language".toList, "en".toList), ("Accept-Language".toList, "fr".toList)])).calls.map
        (fun req => req.header.values "Accept-Language".toList) = [["fr".toList]] := by
  decide

/-! ## C9: at most one start -/

/-- C9: one run of the boot step issues the dev-server start `npm run dev`
at most once; it issues it zero times when the project directory is absent
or when the dependency installation (run only when `node_modules` is
missing) fails, and exactly once otherwise, whatever the outcome of the start
itself. -/
theorem bootStep_starts_dev_server_at_most_once (os : OS) (appPort : Str) :
    (bootStep os appPort).countP Action.isDevServerStart ≤ 1 ∧
    (bootStep os appPort).countP Action.isDevServerStart =
      (if os.statProject.isNotExist || (os.statNodeModules.isNotExist && !os.installOk)
        then 0 else 1) := by
  obtain ⟨sp, sn, io, so, env, ba⟩ := os
  cases sp <;> cases sn <;> cases io <;> cases so <;>
    simp [bootStep, setupNextJSServe, startNextJSDev, StatResult.isNotExist,
      Action.isDevServerStart, devCmd, List.countP_cons]

/-! ## C10: response header copy -/

/-- C10, as stated, fails: for the upstream key `Set-Cookie` with the values
`a=1` and `b=2` the relayed response carries both values, `c.Set` appending
each cookie line; for the upstream key `Date` with one value it carries none;
and a key the response already carried twice keeps its second old value next
to the last upstream value. -/
theorem relay_keeps_every_set_cookie_value :
    (runProxy "3000".toList
      (answeringNet ⟨200, [("Set-Cookie".toList, ["a=1".toList, "b=2".toList])], []⟩)
      (getRequest "/web/".toList []) Proxy.proxyToNextJS).ctx.resp.values "Set-Cookie".toList
      = ["a=1".toList, "b=2".toList] ∧
    (runProxy "3000".toList
      (answeringNet ⟨200, [("Date".toList, ["Mon, 01 Jan 2024 00:00:00 GMT".toList])], []⟩)
      (getRequest "/web/".toList []) Proxy.proxyToNextJS).ctx.resp.values "Date".toList = [] ∧
    (runProxy "3000".toList
      (answeringNet ⟨200, [("X-A".toList, ["1".toList, "2".toList])], []⟩)
      ⟨"GET".toList, "/web/".toList, [], [],
        ⟨200, ⟨[], [], [], [], false, [], [],
          [("X-A".toList, "0".toList), ("X-A".toList, "00".toList)]⟩, []⟩⟩
      Proxy.proxyToNextJS).ctx.resp.values "X-A".toList = ["2".toList, "00".toList] := by
  decide

/-- C10, amended: for every key of the upstream response header that `c.Set`
stores as one overwritable value (every key except `Set-Cookie`, `Connection`,
`Date`, `Transfer-Encoding` and `Trailer`) and whose value list is not empty
and ends in a value the key keeps (for `Content-Type`, `Content-Encoding` and
`Server` a non-empty one, for `Content-Length` the length of the body in
digits), the copy leaves the last value of the list in the place of the first
value the response carried for the key, and adds none of the earlier values:
the relayed response carries the key with exactly one value, the last one,
whenever it carried at most one value for the key before the copy. -/
theorem relay_header_last_write_wins (appPort : Str) (net : Net) (c : Ctx) (p : Proxy)
    (req : ProxyReq) (up : UpstreamResp) (k : Str) (values : List Str)
    (hcall : req ∈ (runProxy appPort net c p).calls)
    (hdo : net.clientDo req = some up)
    (hnodup : (up.header.map (fun e => normalizeHeaderKey e.1)).Nodup)
    (hmem : (k, values) ∈ up.header) (hne : values ≠ [])
    (hkey : lastWriteWins (normalizeHeaderKey k) = true)
    (hval : keepsValue up.body (normalizeHeaderKey k) (values.getLast hne) = true) :
    (runProxy appPort net c p).ctx.resp.values k
      = values.getLast hne :: (c.resp.values k).tail ∧
    ((c.resp.values k).length ≤ 1 →
      (runProxy appPort net c p).ctx.resp.values k = [values.getLast hne]) := by
  rw [runProxy_of_call appPort net c p hcall hdo, copyResponseHeaders_eq]
  have hv : (relayHeaders up.header c.resp.header).valuesOf (normalizeHeaderKey k)
      = values.getLast hne :: (c.resp.header.valuesOf (normalizeHeaderKey k)).tail :=
    valuesOf_relayHeaders_self up.header c.resp.header up.body hnodup hmem hne hkey hval
  refine ⟨hv, ?_⟩
  intro hlen
  have ht : (c.resp.header.valuesOf (normalizeHeaderKey k)).tail = [] := by
    have hl : (c.resp.header.valuesOf (normalizeHeaderKey k)).tail.length = 0 := by
      rw [List.length_tail]
      exact Nat.sub_eq_zero_of_le hlen
    exact List.length_eq_zero.mp hl
  show (relayHeaders up.header c.resp.header).valuesOf (normalizeHeaderKey k) = _
  rw [hv, ht]

/-- Witness for `relay_header_last_write_wins`: upstream header `Vary` with
the values `Accept` and `Origin`; the relayed response has `Vary: Origin`
only. -/
theorem relay_header_last_write_wins_witness :
    (runProxy "3000".toList
      (answeringNet ⟨200, [("Vary".toList, ["Accept".toList, "Origin".toList])], []⟩)
      (getRequest "/web/".toList []) Proxy.proxyToNextJS).ctx.resp.values "Vary".toList
      = ["Origin".toList] :=
  (relay_header_last_write_wins "3000".toList
    (answeringNet ⟨200, [("Vary".toList, ["Accept".toList, "Origin".toList])], []⟩)
    (getRequest "/web/".toList []) Proxy.proxyToNextJS
    (outboundRequest (getRequest "/web/".toList []) (nextTargetURL "/web/".toList))
    ⟨200, [("Vary".toList, ["Accept".toList, "Origin".toList])], []⟩
    "Vary".toList ["Accept".toList, "Origin".toList]
    (List.mem_singleton.mpr rfl) rfl (by decide) (List.mem_singleton.mpr rfl) (by simp)
    (by decide) (by decide)).2 (by decide)

end RestProxy
